import Mathlib

/-!
Shallow embedding of the photobooth composition core:
`src/exposure_utils.py`, `src/frame_composer.py` and
`api/routes/composition.py`.

Machine integers are modelled as `Nat`; the float arithmetic of the source
(brightness means, scale factors, distances) is modelled by exact rational
arithmetic.  Exposure stops are embedded as integers so that the brightness
factor `2.0 ** e` stays rational; every exposure value a claim evaluates
(0, 2, 5, -2, -5) is an integer stop.
-/

/-- One pixel: channel samples in 0..255.  Images in RGB mode carry `a = 255`
(PIL reports an opaque alpha for RGB rasters). -/
structure Pixel where
  r : Nat
  g : Nat
  b : Nat
  a : Nat
deriving DecidableEq, Repr

/-- PIL image mode: the source only ever builds RGB and RGBA rasters. -/
inductive Mode where
  | RGB
  | RGBA
deriving DecidableEq, Repr

/-- In-memory decoded raster; `pix` is looked up as (row, column). -/
structure Image where
  mode : Mode
  h : Nat
  w : Nat
  pix : Nat → Nat → Pixel

/-- Every channel sample of every in-bounds pixel fits in a uint8. -/
def Bounded255 (img : Image) : Prop :=
  ∀ y < img.h, ∀ x < img.w,
    (img.pix y x).r ≤ 255 ∧ (img.pix y x).g ≤ 255 ∧ (img.pix y x).b ≤ 255

instance (img : Image) : Decidable (Bounded255 img) := by
  unfold Bounded255
  exact inferInstance

/-! ### Exposure adjuster — src/exposure_utils.py, apply_exposure -/

/-- Line 25: `exposure_value = max(-2.0, min(2.0, exposure_value))`. -/
def clamp_exposure (e : ℤ) : ℤ := max (-2) (min 2 e)

/-- Line 37: `alpha = 2.0 ** exposure_value`, exact for integer stops. -/
def pow2 (e : ℤ) : ℚ := (2 : ℚ) ^ e

/-- cv2 `saturate_cast<uchar>` of a nonnegative scaled sample: round to the
nearest integer and saturate at 255.  (cv2 rounds exact halves to even; the
claims never depend on the tie direction, and `round` here is half-up.) -/
def satCast (q : ℚ) : Nat := min 255 (round q).toNat

/-- Line 42: `cv2.convertScaleAbs(frame, alpha, beta=0)` — every channel
sample of the 3-channel array is multiplied by `alpha` and saturated.  The
`a` slot models no array channel and is left untouched. -/
def convertScaleAbs (alpha : ℚ) (img : Image) : Image :=
  { img with pix := fun y x =>
      let p := img.pix y x
      ⟨satCast (alpha * p.r), satCast (alpha * p.g), satCast (alpha * p.b), p.a⟩ }

/-- src/exposure_utils.py lines 21-44. -/
def apply_exposure (frame : Image) (exposure_value : ℤ) : Except String Image :=
  if frame.h * frame.w = 0 then .error "Frame cannot be empty"
  else
    let e := clamp_exposure exposure_value
    if e = 0 then .ok frame
    else .ok (convertScaleAbs (pow2 e) frame)

/-- Total-sum form of the mean channel brightness. -/
def brightness_sum (img : Image) : ℕ :=
  ∑ y ∈ Finset.range img.h, ∑ x ∈ Finset.range img.w,
    ((img.pix y x).r + (img.pix y x).g + (img.pix y x).b)

/-- Mean brightness over all channel samples of the raster. -/
def mean_brightness (img : Image) : ℚ :=
  (brightness_sum img : ℚ) / (3 * img.h * img.w)

/-! ### Exposure-list normalization — frame_composer.py 42-49, composition.py 321-324 -/

/-- frame_composer.py lines 42-49: a missing list becomes all zeros, a
wrong-length list is read index-by-index with 0 for the indices past its
end. -/
def normalize_exposures (exposure_values : Option (List ℤ)) (num_photos : ℕ) : List ℤ :=
  let evs := exposure_values.getD (List.replicate num_photos 0)
  if evs.length ≠ num_photos then
    (List.range num_photos).map (fun i => if h : i < evs.length then evs.get ⟨i, h⟩ else 0)
  else evs

/-- composition.py lines 321-324: Python truthiness makes both None and the
empty list fall back to zeros; a wrong-length list is padded with zeros and
truncated to the photo count. -/
def normalize_exposures_api (exposure_values : Option (List ℤ)) (photo_count : ℕ) : List ℤ :=
  let evs := match exposure_values with
    | none => List.replicate photo_count 0
    | some l => if l.isEmpty then List.replicate photo_count 0 else l
  if evs.length ≠ photo_count then (evs ++ List.replicate photo_count 0).take photo_count
  else evs


/-- Canonical pad-or-truncate: entry i is the supplied value when present,
0 past the end of the supplied list. -/
def padTruncate (l : List ℤ) (n : ℕ) : List ℤ :=
  (List.range n).map (fun i => l.getD i 0)

lemma padTruncate_length (l : List ℤ) (n : ℕ) : (padTruncate l n).length = n := by
  simp [padTruncate]

lemma padTruncate_getD (l : List ℤ) (n i : ℕ) (h : i < n) :
    (padTruncate l n).getD i 0 = l.getD i 0 := by
  rw [List.getD_eq_getElem _ _ (by simp [padTruncate_length, h])]
  simp [padTruncate]

lemma padTruncate_of_length_eq (l : List ℤ) (n : ℕ) (h : l.length = n) :
    padTruncate l n = l := by
  apply List.ext_getElem (by simp [padTruncate_length, h])
  intro i h1 h2
  simp only [padTruncate, List.getElem_map, List.getElem_range]
  exact List.getD_eq_getElem l 0 h2

lemma padTruncate_nil (n : ℕ) : padTruncate [] n = List.replicate n 0 := by
  apply List.ext_getElem (by simp [padTruncate_length])
  intro i h1 h2
  simp [padTruncate]

lemma normalize_exposures_eq (vals : Option (List ℤ)) (n : ℕ) :
    normalize_exposures vals n = padTruncate (vals.getD []) n := by
  cases vals with
  | none =>
    show (if (List.replicate n (0:ℤ)).length ≠ n then _ else _) = _
    rw [if_neg (by simp)]
    exact (padTruncate_nil n).symm
  | some l =>
    simp only [Option.getD_some]
    show (if l.length ≠ n then
        (List.range n).map (fun i => if h : i < l.length then l.get ⟨i, h⟩ else 0)
      else l) = _
    by_cases hl : l.length = n
    · rw [if_neg (by omega), padTruncate_of_length_eq l n hl]
    · rw [if_pos (by omega)]
      unfold padTruncate
      apply List.map_congr_left
      intro i _
      by_cases hi : i < l.length
      · rw [dif_pos hi, List.getD_eq_getElem _ _ hi]
        rfl
      · rw [dif_neg hi, List.getD_eq_default _ _ (by omega)]

lemma normalize_exposures_api_eq (vals : Option (List ℤ)) (n : ℕ) :
    normalize_exposures_api vals n = padTruncate (vals.getD []) n := by
  cases vals with
  | none =>
    show (if (List.replicate n (0:ℤ)).length ≠ n then _ else _) = _
    rw [if_neg (by simp)]
    exact (padTruncate_nil n).symm
  | some l =>
    simp only [Option.getD_some]
    by_cases hemp : l.isEmpty
    · have hl : l = [] := List.isEmpty_iff.mp hemp
      subst hl
      show (if (List.replicate n (0:ℤ)).length ≠ n then _ else _) = _
      rw [if_neg (by simp)]
      exact (padTruncate_nil n).symm
    · show (if (if l.isEmpty then List.replicate n (0:ℤ)
          else l).length ≠ n then _ else _) = _
      simp only [if_neg hemp]
      by_cases hl : l.length = n
      · rw [if_neg (by omega), padTruncate_of_length_eq l n hl]
      · rw [if_pos (by omega)]
        apply List.ext_getElem
        · simp [padTruncate_length]
        · intro i h1 h2
          have hin : i < n := by
            simpa [padTruncate_length] using h2
          rw [List.getElem_take]
          simp only [padTruncate, List.getElem_map, List.getElem_range]
          rw [List.getElem_append]
          by_cases hi : i < l.length
          · rw [dif_pos hi, List.getD_eq_getElem _ _ hi]
          · rw [dif_neg hi, List.getD_eq_default _ _ (by omega)]
            simp [List.getElem_replicate]

/-! ### Exposure adjuster lemmas -/

lemma satCast_mono {q1 q2 : ℚ} (h : q1 ≤ q2) : satCast q1 ≤ satCast q2 := by
  unfold satCast
  have hr : round q1 ≤ round q2 := by
    rw [round_eq, round_eq]
    exact Int.floor_le_floor (by linarith)
  exact inf_le_inf (le_refl 255) (Int.toNat_le_toNat hr)

lemma satCast_natCast (v : ℕ) (hv : v ≤ 255) : satCast (v : ℚ) = v := by
  unfold satCast
  rw [round_natCast]
  simp [Int.toNat_natCast, Nat.min_eq_right hv]

/-- Per-sample monotonicity of the clamped-exposure brightness map. -/
lemma expo_sample_mono (c1 c2 : ℤ) (hle : c1 ≤ c2) (v : ℕ) (hv : v ≤ 255) :
    (if c1 = 0 then v else satCast (pow2 c1 * v)) ≤
      (if c2 = 0 then v else satCast (pow2 c2 * v)) := by
  have hv0 : (0 : ℚ) ≤ (v : ℚ) := by positivity
  by_cases h1 : c1 = 0 <;> by_cases h2 : c2 = 0 <;>
    simp only [h1, h2, if_pos, if_neg, ite_true, ite_false]
  · exact le_refl v
  · have hc2 : (0 : ℤ) ≤ c2 := by omega
    have hp : (1 : ℚ) ≤ pow2 c2 := by
      have := zpow_le_zpow_right₀ (by norm_num : (1:ℚ) ≤ 2) hc2
      simpa [pow2] using this
    calc v = satCast (v : ℚ) := (satCast_natCast v hv).symm
      _ ≤ satCast (pow2 c2 * v) := satCast_mono (le_mul_of_one_le_left hv0 hp)
  · have hc1 : c1 ≤ 0 := by omega
    have hp : pow2 c1 ≤ 1 := by
      have := zpow_le_zpow_right₀ (by norm_num : (1:ℚ) ≤ 2) hc1
      simpa [pow2] using this
    calc satCast (pow2 c1 * v) ≤ satCast (v : ℚ) :=
        satCast_mono (mul_le_of_le_one_left hv0 hp)
      _ = v := satCast_natCast v hv
  · apply satCast_mono
    apply mul_le_mul_of_nonneg_right _ hv0
    exact zpow_le_zpow_right₀ (by norm_num : (1:ℚ) ≤ 2) hle

/-- The image `apply_exposure` returns on a nonempty input. -/
def expo_out (img : Image) (e : ℤ) : Image :=
  if clamp_exposure e = 0 then img else convertScaleAbs (pow2 (clamp_exposure e)) img

lemma apply_exposure_eq_expo_out (img : Image) (e : ℤ) (h : ¬ img.h * img.w = 0) :
    apply_exposure img e = .ok (expo_out img e) := by
  unfold apply_exposure expo_out
  rw [if_neg h]
  by_cases hc : clamp_exposure e = 0 <;> simp [hc]

lemma expo_out_h (img : Image) (e : ℤ) : (expo_out img e).h = img.h := by
  unfold expo_out
  split <;> rfl

lemma expo_out_w (img : Image) (e : ℤ) : (expo_out img e).w = img.w := by
  unfold expo_out
  split <;> rfl

lemma expo_out_pix (img : Image) (e : ℤ) (y x : ℕ) :
    ((expo_out img e).pix y x).r =
      (if clamp_exposure e = 0 then (img.pix y x).r
       else satCast (pow2 (clamp_exposure e) * (img.pix y x).r)) ∧
    ((expo_out img e).pix y x).g =
      (if clamp_exposure e = 0 then (img.pix y x).g
       else satCast (pow2 (clamp_exposure e) * (img.pix y x).g)) ∧
    ((expo_out img e).pix y x).b =
      (if clamp_exposure e = 0 then (img.pix y x).b
       else satCast (pow2 (clamp_exposure e) * (img.pix y x).b)) := by
  unfold expo_out convertScaleAbs
  split <;> simp

lemma clamp_exposure_mono {e1 e2 : ℤ} (h : e1 ≤ e2) :
    clamp_exposure e1 ≤ clamp_exposure e2 := by
  unfold clamp_exposure
  omega

lemma expo_out_sum_mono (img : Image) (e1 e2 : ℤ)
    (hwf : Bounded255 img) (h12 : e1 ≤ e2) :
    brightness_sum (expo_out img e1) ≤ brightness_sum (expo_out img e2) := by
  unfold brightness_sum
  rw [expo_out_h, expo_out_w, expo_out_h, expo_out_w]
  apply Finset.sum_le_sum
  intro y hy
  apply Finset.sum_le_sum
  intro x hx
  obtain ⟨hr, hg, hb⟩ := hwf y (Finset.mem_range.mp hy) x (Finset.mem_range.mp hx)
  have hc := clamp_exposure_mono h12
  obtain ⟨h1r, h1g, h1b⟩ := expo_out_pix img e1 y x
  obtain ⟨h2r, h2g, h2b⟩ := expo_out_pix img e2 y x
  rw [h1r, h1g, h1b, h2r, h2g, h2b]
  have mr := expo_sample_mono _ _ hc (img.pix y x).r hr
  have mg := expo_sample_mono _ _ hc (img.pix y x).g hg
  have mb := expo_sample_mono _ _ hc (img.pix y x).b hb
  omega

/-- Small concrete raster used by the witness theorems. -/
def testImage : Image :=
  ⟨Mode.RGB, 2, 2, fun y x => ⟨40 + 20 * y, 30 * x, 10, 255⟩⟩

/-- C7: applying the exposure adjuster with exposure value 0 returns the
input image unchanged, with no recomputation of pixel values. -/
theorem exposure_identity (img : Image) (h : ¬ img.h * img.w = 0) :
    apply_exposure img 0 = .ok img := by
  unfold apply_exposure
  rw [if_neg h]
  norm_num [clamp_exposure]

theorem exposure_identity_witness :
    ¬ testImage.h * testImage.w = 0 ∧ apply_exposure testImage 0 = .ok testImage :=
  ⟨by decide, exposure_identity testImage (by decide)⟩

/-- C8: exposure values outside the valid range are clamped rather than
rejected: adjusting by 5 equals adjusting by 2, and adjusting by -5 equals
adjusting by -2, bit for bit. -/
theorem exposure_clamping (img : Image) (h : ¬ img.h * img.w = 0) :
    apply_exposure img 5 = apply_exposure img 2 ∧
      apply_exposure img (-5) = apply_exposure img (-2) := by
  unfold apply_exposure
  simp only [if_neg h]
  norm_num [clamp_exposure]

theorem exposure_clamping_witness :
    ¬ testImage.h * testImage.w = 0 ∧
      (apply_exposure testImage 5 = apply_exposure testImage 2 ∧
        apply_exposure testImage (-5) = apply_exposure testImage (-2)) :=
  ⟨by decide, exposure_clamping testImage (by decide)⟩

/-- C9: for exposure stops e1 < e2 on a nonempty uint8 image, the mean
brightness of the adjusted image is monotone: the gain 2 ** e is multiplied
into every channel sample and saturates at 255, never wraps. -/
theorem exposure_monotonic (img : Image) (e1 e2 : ℤ)
    (hwf : Bounded255 img) (hne : ¬ img.h * img.w = 0) (h12 : e1 < e2) :
    ∃ o1 o2, apply_exposure img e1 = .ok o1 ∧ apply_exposure img e2 = .ok o2 ∧
      mean_brightness o1 ≤ mean_brightness o2 := by
  refine ⟨expo_out img e1, expo_out img e2,
    apply_exposure_eq_expo_out img e1 hne, apply_exposure_eq_expo_out img e2 hne, ?_⟩
  unfold mean_brightness
  rw [expo_out_h, expo_out_w, expo_out_h, expo_out_w]
  have hh : 0 < img.h := by
    rcases Nat.eq_zero_or_pos img.h with h0 | h0
    · exact absurd (by rw [h0, Nat.zero_mul]) hne
    · exact h0
  have hw : 0 < img.w := by
    rcases Nat.eq_zero_or_pos img.w with h0 | h0
    · exact absurd (by rw [h0, Nat.mul_zero]) hne
    · exact h0
  have hD : (0 : ℚ) < 3 * img.h * img.w := by
    have h1 : (0 : ℚ) < (img.h : ℚ) := by exact_mod_cast hh
    have h2 : (0 : ℚ) < (img.w : ℚ) := by exact_mod_cast hw
    positivity
  apply (div_le_div_iff_of_pos_right hD).mpr
  exact_mod_cast expo_out_sum_mono img e1 e2 hwf (le_of_lt h12)

theorem exposure_monotonic_witness :
    Bounded255 testImage ∧ ¬ testImage.h * testImage.w = 0 ∧ (0 : ℤ) < 1 ∧
      (∃ o1 o2, apply_exposure testImage 0 = .ok o1 ∧
        apply_exposure testImage 1 = .ok o2 ∧
        mean_brightness o1 ≤ mean_brightness o2) :=
  ⟨by decide, by decide, by decide,
    exposure_monotonic testImage 0 1 (by decide) (by decide) (by decide)⟩

/-- C10: exposure lists of the wrong length never abort a composition: both
the desktop and the API normalization are total, produce exactly one value
per photo, keep supplied prefix values, pad missing trailing values with 0
and drop extras; a missing list acts as all zeros. -/
theorem exposure_list_normalization (vals : Option (List ℤ)) (n i : ℕ) (h : i < n) :
    (normalize_exposures vals n).length = n ∧
      normalize_exposures_api vals n = normalize_exposures vals n ∧
      (normalize_exposures vals n).getD i 0 = (vals.getD []).getD i 0 := by
  refine ⟨?_, ?_, ?_⟩
  · rw [normalize_exposures_eq]
    exact padTruncate_length _ n
  · rw [normalize_exposures_eq, normalize_exposures_api_eq]
  · rw [normalize_exposures_eq]
    exact padTruncate_getD _ n i h

theorem exposure_list_normalization_witness :
    2 < 4 ∧
      ((normalize_exposures (some [7, 9]) 4).length = 4 ∧
        normalize_exposures_api (some [7, 9]) 4 = normalize_exposures (some [7, 9]) 4 ∧
        (normalize_exposures (some [7, 9]) 4).getD 2 0 = ((some [7, 9]).getD []).getD 2 0) :=
  ⟨by decide, exposure_list_normalization (some [7, 9]) 4 2 (by decide)⟩

/-! ### Opacity mask resolver — frame_composer.py apply_frame lines 181-252 -/

/-- Grid position (row, column). -/
abbrev Pos := ℕ × ℕ

/-- Dark pixel test, lines 191-198: mean RGB brightness below 80.  For three
uint8 samples, (r+g+b)/3 < 80 holds exactly when r+g+b < 240, so the float
mean of the source is modelled exactly.  A dark position is in bounds. -/
def isDark (img : Image) (p : Pos) : Prop :=
  p.1 < img.h ∧ p.2 < img.w ∧
    (img.pix p.1 p.2).r + (img.pix p.1 p.2).g + (img.pix p.1 p.2).b < 240

instance isDark_dec (img : Image) (p : Pos) : Decidable (isDark img p) :=
  decidable_of_iff (p.1 < img.h ∧ p.2 < img.w ∧
    (img.pix p.1 p.2).r + (img.pix p.1 p.2).g + (img.pix p.1 p.2).b < 240) Iff.rfl

/-- The four cross neighbours used by the labeling (Nat subtraction clips at
the border; a clipped neighbour coincides with the cell itself and is
harmless). -/
def nbrs (p : Pos) : List Pos :=
  [(p.1 - 1, p.2), (p.1 + 1, p.2), (p.1, p.2 - 1), (p.1, p.2 + 1)]

/-- 4-adjacency of grid positions. -/
def Adj (p q : Pos) : Prop :=
  (p.1 = q.1 ∧ (p.2 + 1 = q.2 ∨ q.2 + 1 = p.2)) ∨
    (p.2 = q.2 ∧ (p.1 + 1 = q.1 ∨ q.1 + 1 = p.1))

/-- One step between two dark pixels of the dark-mask. -/
def DarkStep (img : Image) (p q : Pos) : Prop :=
  isDark img p ∧ isDark img q ∧ Adj p q

/-- Membership in the same 4-connected component of the dark-mask. -/
def Reaches (img : Image) (p q : Pos) : Prop :=
  Relation.ReflTransGen (DarkStep img) p q

/-- C is the 4-connected component of the dark-mask seeded at some dark
pixel: the declarative reading of one label of `scipy.ndimage.label`. -/
def IsCompCl (img : Image) (C : Finset Pos) : Prop :=
  ∃ p, isDark img p ∧ ∀ q, q ∈ C ↔ Reaches img p q

/-- One saturation step of the flood fill: add every dark neighbour. -/
def stepF (img : Image) (s : Finset Pos) : Finset Pos :=
  s ∪ s.biUnion (fun p => (nbrs p).toFinset.filter (fun q => isDark img q))

/-- The connected component containing p, by flood-fill saturation: h*w
rounds always reach the fixpoint. -/
def compOf (img : Image) (p : Pos) : Finset Pos :=
  (stepF img)^[img.h * img.w] {p}

/-- All grid positions in raster-scan order (the label discovery order of
`scipy.ndimage.label`). -/
def allPositions (img : Image) : List Pos :=
  (List.range img.h).flatMap (fun y => (List.range img.w).map (fun x => (y, x)))

/-- One raster-scan step of label discovery: a dark pixel not yet labeled
starts a new component. -/
def comp_step (img : Image) (acc : List (Finset Pos)) (p : Pos) : List (Finset Pos) :=
  if isDark img p ∧ ∀ C ∈ acc, p ∉ C then acc ++ [compOf img p] else acc

/-- Component list in first-encounter raster order, lines 202-207. -/
def components (img : Image) : List (Finset Pos) :=
  (allPositions img).foldl (comp_step img) []

/-- Line 207: `np.argmax(sizes[1:]) + 1` — the first component of maximal
size in label order. -/
def select_largest (l : List (Finset Pos)) : Finset Pos :=
  l.foldl (fun best c => if best.card < c.card then c else best) ∅

/-- Lines 213-222: Euclidean distance from (w//2, h//2) below
0.6 * min(h, w), squared to stay in exact integer arithmetic:
d < (3/5)m iff 25 d^2 < 9 m^2 for nonnegative d, m. -/
def close_to_center (img : Image) (p : Pos) : Prop :=
  25 * (((p.2 : ℤ) - (img.w / 2 : ℕ)) ^ 2 + ((p.1 : ℤ) - (img.h / 2 : ℕ)) ^ 2) <
    9 * ((min img.h img.w : ℕ) : ℤ) ^ 2

instance close_to_center_dec (img : Image) (p : Pos) : Decidable (close_to_center img p) :=
  decidable_of_iff
    (25 * (((p.2 : ℤ) - (img.w / 2 : ℕ)) ^ 2 + ((p.1 : ℤ) - (img.h / 2 : ℕ)) ^ 2) <
      9 * ((min img.h img.w : ℕ) : ℤ) ^ 2) Iff.rfl

/-- Lines 202-252: the synthesized opacity mask.  When the dark-mask is
nonempty (`num_features > 0`), alpha is forced to 0 on the near-center part
of the largest dark component and to 255 everywhere else; otherwise the
fallback thresholds the original alpha at 128 (transparent pixels are
whitened, lines 244-250).  The source guards the alpha write with
`shape[2] == 4`, which always holds: the frame was converted to RGBA. -/
def resolve_mask (img : Image) : Image :=
  if ∃ p ∈ allPositions img, isDark img p then
    let sel := select_largest (components img)
    { img with pix := fun y x =>
        let p := img.pix y x
        if (y, x) ∈ sel ∧ close_to_center img (y, x) then ⟨p.r, p.g, p.b, 0⟩
        else ⟨p.r, p.g, p.b, 255⟩ }
  else
    { img with pix := fun y x =>
        let p := img.pix y x
        if p.a < 128 then ⟨255, 255, 255, 0⟩ else ⟨p.r, p.g, p.b, 255⟩ }

/-- A 3x3 frame with a dark plus-shaped center region, used in sanity
checks and witnesses. -/
def testFrame : Image :=
  ⟨Mode.RGBA, 3, 3, fun y x => if y = 1 ∨ x = 1 then ⟨5, 5, 5, 200⟩ else ⟨250, 250, 250, 60⟩⟩

example : isDark testFrame (1, 1) := by decide
example : ¬ isDark testFrame (0, 0) := by decide
example : (1, 2) ∈ compOf testFrame (1, 1) := by decide
example : (components testFrame).length = 1 := by decide
example : close_to_center testFrame (1, 1) := by decide
example : ¬ close_to_center ⟨Mode.RGBA, 1, 10, fun _ _ => ⟨0, 0, 0, 255⟩⟩ (0, 0) := by decide
example : ((resolve_mask testFrame).pix 1 1).a = 0 := by decide
example : ((resolve_mask testFrame).pix 0 0).a = 255 := by decide

/-! ### Flood-fill correctness -/

lemma mem_allPositions (img : Image) (p : Pos) :
    p ∈ allPositions img ↔ p.1 < img.h ∧ p.2 < img.w := by
  cases p with
  | mk y x =>
    simp [allPositions, List.mem_flatMap, List.mem_map, List.mem_range]

lemma subset_stepF (img : Image) (s : Finset Pos) : s ⊆ stepF img s :=
  Finset.subset_union_left

lemma mem_stepF {img : Image} {s : Finset Pos} {q : Pos} :
    q ∈ stepF img s ↔ q ∈ s ∨ ∃ r ∈ s, q ∈ nbrs r ∧ isDark img q := by
  constructor
  · intro h
    rcases Finset.mem_union.mp h with h | h
    · exact Or.inl h
    · obtain ⟨r, hr, hq⟩ := Finset.mem_biUnion.mp h
      obtain ⟨hqn, hqd⟩ := Finset.mem_filter.mp hq
      exact Or.inr ⟨r, hr, List.mem_toFinset.mp hqn, hqd⟩
  · intro h
    rcases h with h | ⟨r, hr, hqn, hqd⟩
    · exact Finset.mem_union_left _ h
    · refine Finset.mem_union_right _ (Finset.mem_biUnion.mpr ⟨r, hr, ?_⟩)
      exact Finset.mem_filter.mpr ⟨List.mem_toFinset.mpr hqn, hqd⟩

lemma nbrs_cases {r q : Pos} (h : q ∈ nbrs r) : q = r ∨ Adj r q := by
  simp only [nbrs, List.mem_cons, List.mem_singleton, List.not_mem_nil, or_false] at h
  obtain ⟨a, b⟩ := r
  rcases h with h | h | h | h <;> subst h <;>
    simp [Adj, Prod.mk.injEq] <;> omega

lemma adj_mem_nbrs {r q : Pos} (h : Adj r q) : q ∈ nbrs r := by
  obtain ⟨a, b⟩ := r
  obtain ⟨c, d⟩ := q
  rcases h with ⟨h1, h2 | h2⟩ | ⟨h1, h2 | h2⟩ <;>
    simp [nbrs, Prod.mk.injEq] <;> omega

lemma adj_symm {p q : Pos} (h : Adj p q) : Adj q p := by
  rcases h with ⟨h1, h2⟩ | ⟨h1, h2⟩
  · exact Or.inl ⟨h1.symm, h2.symm⟩
  · exact Or.inr ⟨h1.symm, h2.symm⟩

lemma darkStep_symm (img : Image) : Symmetric (DarkStep img) := by
  intro p q ⟨h1, h2, h3⟩
  exact ⟨h2, h1, adj_symm h3⟩

lemma reaches_symm {img : Image} {p q : Pos} (h : Reaches img p q) : Reaches img q p :=
  Relation.ReflTransGen.symmetric (darkStep_symm img) h

/-- Bounding box of all grid positions. -/
def gridU (img : Image) : Finset Pos := Finset.range img.h ×ˢ Finset.range img.w

lemma mem_gridU {img : Image} {p : Pos} :
    p ∈ gridU img ↔ p.1 < img.h ∧ p.2 < img.w := by
  simp [gridU, Finset.mem_product]

lemma gridU_card (img : Image) : (gridU img).card = img.h * img.w := by
  simp [gridU]

lemma stepF_bounded (img : Image) (s : Finset Pos) (hs : s ⊆ gridU img) :
    stepF img s ⊆ gridU img := by
  intro q hq
  rcases mem_stepF.mp hq with h | ⟨r, _, _, hqd⟩
  · exact hs h
  · exact mem_gridU.mpr ⟨hqd.1, hqd.2.1⟩

lemma iterate_saturates {α : Type} [DecidableEq α] (f : Finset α → Finset α)
    (hmono : ∀ s, s ⊆ f s) (U : Finset α) (hU : ∀ s, s ⊆ U → f s ⊆ U) :
    ∀ (k : ℕ) (s : Finset α), s ⊆ U → U.card ≤ s.card + k → f (f^[k] s) = f^[k] s := by
  intro k
  induction k with
  | zero =>
    intro s hs hcard
    have hse : s = U := Finset.eq_of_subset_of_card_le hs (by omega)
    subst hse
    simp only [Function.iterate_zero, id]
    exact Finset.Subset.antisymm (hU s (Finset.Subset.refl s)) (hmono s)
  | succ k ih =>
    intro s hs hcard
    by_cases hfs : f s = s
    · rw [Function.iterate_fixed hfs]
      exact hfs
    · have hss : s ⊂ f s := (hmono s).ssubset_of_ne (fun he => hfs he.symm)
      have hcard2 : s.card < (f s).card := Finset.card_lt_card hss
      rw [Function.iterate_succ_apply]
      exact ih (f s) (hU s hs) (by omega)

lemma subset_iterate {α : Type} (f : Finset α → Finset α)
    (hmono : ∀ s, s ⊆ f s) (k : ℕ) (s : Finset α) : s ⊆ f^[k] s := by
  induction k with
  | zero => simp
  | succ k ih =>
    rw [Function.iterate_succ_apply']
    exact ih.trans (hmono _)

lemma stepF_compOf (img : Image) (p : Pos) (hp : isDark img p) :
    stepF img (compOf img p) = compOf img p := by
  apply iterate_saturates (stepF img) (subset_stepF img) (gridU img) (stepF_bounded img)
  · intro q hq
    rw [Finset.mem_singleton] at hq
    subst hq
    exact mem_gridU.mpr ⟨hp.1, hp.2.1⟩
  · rw [gridU_card, Finset.card_singleton]
    omega

lemma mem_compOf_self (img : Image) (p : Pos) : p ∈ compOf img p :=
  subset_iterate (stepF img) (subset_stepF img) _ {p} (Finset.mem_singleton_self p)

lemma compOf_sound (img : Image) (p : Pos) (hp : isDark img p) :
    ∀ q ∈ compOf img p, Reaches img p q ∧ isDark img q := by
  unfold compOf
  generalize img.h * img.w = k
  induction k with
  | zero =>
    intro q hq
    simp only [Function.iterate_zero, id, Finset.mem_singleton] at hq
    subst hq
    exact ⟨Relation.ReflTransGen.refl, hp⟩
  | succ k ih =>
    intro q hq
    rw [Function.iterate_succ_apply'] at hq
    rcases mem_stepF.mp hq with h | ⟨r, hr, hqn, hqd⟩
    · exact ih q h
    · obtain ⟨hreach, hrd⟩ := ih r hr
      rcases nbrs_cases hqn with h | h
      · subst h
        exact ⟨hreach, hrd⟩
      · exact ⟨hreach.tail ⟨hrd, hqd, h⟩, hqd⟩

lemma compOf_complete (img : Image) (p q : Pos) (hp : isDark img p)
    (h : Reaches img p q) : q ∈ compOf img p := by
  induction h with
  | refl => exact mem_compOf_self img p
  | tail hpr hstep ih =>
    rw [← stepF_compOf img p hp]
    exact mem_stepF.mpr (Or.inr ⟨_, ih, adj_mem_nbrs hstep.2.2, hstep.2.1⟩)

lemma compOf_iff (img : Image) (p q : Pos) (hp : isDark img p) :
    q ∈ compOf img p ↔ Reaches img p q :=
  ⟨fun h => (compOf_sound img p hp q h).1, compOf_complete img p q hp⟩

lemma isCompCl_compOf (img : Image) (p : Pos) (hp : isDark img p) :
    IsCompCl img (compOf img p) :=
  ⟨p, hp, fun q => compOf_iff img p q hp⟩

/-! ### Component discovery and largest-component selection -/

lemma comp_step_sub (img : Image) (acc : List (Finset Pos)) (p : Pos) :
    ∀ C ∈ acc, C ∈ comp_step img acc p := by
  intro C hC
  unfold comp_step
  split
  · exact List.mem_append_left _ hC
  · exact hC

lemma foldl_comp_step_sub (img : Image) (l : List Pos) (acc : List (Finset Pos)) :
    ∀ C ∈ acc, C ∈ l.foldl (comp_step img) acc := by
  induction l generalizing acc with
  | nil => exact fun C hC => hC
  | cons p l ih =>
    intro C hC
    exact ih (comp_step img acc p) C (comp_step_sub img acc p C hC)

lemma foldl_comp_step_seeded (img : Image) (l : List Pos) (acc : List (Finset Pos))
    (hacc : ∀ C ∈ acc, ∃ r, isDark img r ∧ C = compOf img r) :
    ∀ C ∈ l.foldl (comp_step img) acc, ∃ r, isDark img r ∧ C = compOf img r := by
  induction l generalizing acc with
  | nil => exact hacc
  | cons p l ih =>
    apply ih
    intro C hC
    unfold comp_step at hC
    split at hC
    · next hcond =>
      rcases List.mem_append.mp hC with h | h
      · exact hacc C h
      · rw [List.mem_singleton] at h
        exact ⟨p, hcond.1, h⟩
    · exact hacc C hC

lemma components_seeded (img : Image) :
    ∀ C ∈ components img, ∃ r, isDark img r ∧ C = compOf img r :=
  foldl_comp_step_seeded img (allPositions img) [] (by simp)

lemma foldl_comp_step_cover (img : Image) (l : List Pos) (acc : List (Finset Pos))
    (p : Pos) (hp : isDark img p) (hmem : p ∈ l) :
    ∃ C ∈ l.foldl (comp_step img) acc, p ∈ C := by
  induction l generalizing acc with
  | nil => exact absurd hmem (List.not_mem_nil p)
  | cons q l ih =>
    rw [List.foldl_cons]
    rcases List.mem_cons.mp hmem with h | h
    · subst h
      by_cases hcond : isDark img p ∧ ∀ C ∈ acc, p ∉ C
      · refine ⟨compOf img p, ?_, mem_compOf_self img p⟩
        apply foldl_comp_step_sub
        unfold comp_step
        rw [if_pos hcond]
        exact List.mem_append_right _ (List.mem_singleton_self _)
      · push_neg at hcond
        obtain ⟨C, hC, hpC⟩ := hcond hp
        exact ⟨C, foldl_comp_step_sub img l _ C (comp_step_sub img acc p C hC), hpC⟩
    · exact ih (comp_step img acc q) h

lemma components_cover (img : Image) (p : Pos) (hp : isDark img p) :
    ∃ C ∈ components img, p ∈ C :=
  foldl_comp_step_cover img (allPositions img) [] p hp
    ((mem_allPositions img p).mpr ⟨hp.1, hp.2.1⟩)

lemma select_foldl_mem (l : List (Finset Pos)) (b : Finset Pos) :
    l.foldl (fun best c => if best.card < c.card then c else best) b = b ∨
      l.foldl (fun best c => if best.card < c.card then c else best) b ∈ l := by
  induction l generalizing b with
  | nil => exact Or.inl rfl
  | cons c l ih =>
    rw [List.foldl_cons]
    rcases ih (if b.card < c.card then c else b) with h | h
    · rw [h]
      by_cases hc : b.card < c.card
      · rw [if_pos hc]
        exact Or.inr (List.mem_cons_self c l)
      · rw [if_neg hc]
        exact Or.inl rfl
    · exact Or.inr (List.mem_cons_of_mem c h)

lemma select_foldl_ge (l : List (Finset Pos)) (b : Finset Pos) :
    b.card ≤ (l.foldl (fun best c => if best.card < c.card then c else best) b).card ∧
      ∀ C ∈ l, C.card ≤ (l.foldl (fun best c => if best.card < c.card then c else best) b).card := by
  induction l generalizing b with
  | nil => exact ⟨le_refl _, by simp⟩
  | cons c l ih =>
    obtain ⟨h1, h2⟩ := ih (if b.card < c.card then c else b)
    rw [List.foldl_cons]
    constructor
    · refine le_trans ?_ h1
      by_cases hc : b.card < c.card
      · rw [if_pos hc]
        omega
      · rw [if_neg hc]
    · intro C hC
      rcases List.mem_cons.mp hC with h | h
      · subst h
        refine le_trans ?_ h1
        by_cases hc : b.card < C.card
        · rw [if_pos hc]
        · rw [if_neg hc]
          omega
      · exact h2 C h

lemma select_largest_mem (l : List (Finset Pos)) :
    select_largest l = ∅ ∨ select_largest l ∈ l :=
  select_foldl_mem l ∅

lemma select_largest_ge (l : List (Finset Pos)) :
    ∀ C ∈ l, C.card ≤ (select_largest l).card :=
  (select_foldl_ge l ∅).2

/-- Two seeds of intersecting classes generate the same class. -/
lemma reaches_class_eq (img : Image) (p r z : Pos) (hrp : Reaches img r p) :
    Reaches img p z ↔ Reaches img r z :=
  ⟨fun h => hrp.trans h, fun h => (reaches_symm hrp).trans h⟩

/-- Every declarative dark component is literally one of the computed
components, so the computed maximum dominates all such components. -/
lemma isCompCl_eq_some_component (img : Image) (D : Finset Pos)
    (hD : IsCompCl img D) : ∃ C ∈ components img, D = C := by
  obtain ⟨q, hq, hiff⟩ := hD
  obtain ⟨C, hC, hqC⟩ := components_cover img q hq
  obtain ⟨r, hr, hCr⟩ := components_seeded img C hC
  subst hCr
  refine ⟨compOf img r, hC, ?_⟩
  have hrq : Reaches img r q := (compOf_sound img r hr q hqC).1
  apply Finset.ext
  intro z
  rw [hiff z, compOf_iff img r z hr]
  exact reaches_class_eq img q r z hrq

/-- C1: when the cover-fit-cropped frame has at least one dark pixel, the
resolved opacity mask sets alpha = 0 exactly on the intersection of the
largest 4-connected component of the dark-mask with the pixels whose
distance from the image center is below 0.6 * min(width, height), and sets
alpha = 255 on every other pixel, whatever the original alpha there was. -/
theorem opacity_mask_largest_component (img : Image)
    (hdark : ∃ p, isDark img p) :
    ∃ C : Finset Pos, IsCompCl img C ∧
      (∀ D : Finset Pos, IsCompCl img D → D.card ≤ C.card) ∧
      ∀ y x, ((resolve_mask img).pix y x).a =
        if (y, x) ∈ C ∧ close_to_center img (y, x) then 0 else 255 := by
  obtain ⟨p0, hp0⟩ := hdark
  have hex : ∃ p ∈ allPositions img, isDark img p :=
    ⟨p0, (mem_allPositions img p0).mpr ⟨hp0.1, hp0.2.1⟩, hp0⟩
  obtain ⟨C0, hC0, hpC0⟩ := components_cover img p0 hp0
  have hge := select_largest_ge (components img)
  have hC0card : 1 ≤ C0.card := Finset.card_pos.mpr ⟨p0, hpC0⟩
  have hselcard : 1 ≤ (select_largest (components img)).card :=
    le_trans hC0card (hge C0 hC0)
  have hselmem : select_largest (components img) ∈ components img := by
    rcases select_largest_mem (components img) with h | h
    · rw [h] at hselcard
      simp at hselcard
    · exact h
  obtain ⟨r, hr, hsel_eq⟩ := components_seeded img _ hselmem
  refine ⟨select_largest (components img), ?_, ?_, ?_⟩
  · rw [hsel_eq]
    exact isCompCl_compOf img r hr
  · intro D hD
    obtain ⟨C, hC, hDC⟩ := isCompCl_eq_some_component img D hD
    rw [hDC]
    exact hge C hC
  · intro y x
    unfold resolve_mask
    rw [if_pos hex]
    dsimp only
    split <;> rfl

theorem opacity_mask_largest_component_witness :
    (∃ p, isDark testFrame p) ∧
      (∃ C : Finset Pos, IsCompCl testFrame C ∧
        (∀ D : Finset Pos, IsCompCl testFrame D → D.card ≤ C.card) ∧
        ∀ y x, ((resolve_mask testFrame).pix y x).a =
          if (y, x) ∈ C ∧ close_to_center testFrame (y, x) then 0 else 255) :=
  ⟨⟨(1, 1), by decide⟩, opacity_mask_largest_component testFrame ⟨(1, 1), by decide⟩⟩

/-- A uniformly mid-gray frame body: no pixel is dark, alpha varies. -/
def grayFrame : Image :=
  ⟨Mode.RGBA, 2, 2, fun _ x => ⟨128, 128, 128, 60 + 80 * x⟩⟩

/-- C5: when no pixel of the cropped frame is dark, mask resolution does not
fail; it falls back to thresholding the original alpha channel: alpha < 128
becomes fully transparent, everything else fully opaque. -/
theorem opacity_mask_fallback (img : Image)
    (hnodark : ∀ p : Pos, ¬ isDark img p) :
    ∀ y x, ((resolve_mask img).pix y x).a =
      if (img.pix y x).a < 128 then 0 else 255 := by
  intro y x
  unfold resolve_mask
  rw [if_neg (fun h => by
    obtain ⟨p, _, hd⟩ := h
    exact hnodark p hd)]
  dsimp only
  split <;> rfl

theorem opacity_mask_fallback_witness :
    (∀ p : Pos, ¬ isDark grayFrame p) ∧
      ∀ y x, ((resolve_mask grayFrame).pix y x).a =
        if (grayFrame.pix y x).a < 128 then 0 else 255 := by
  have hno : ∀ p : Pos, ¬ isDark grayFrame p := by
    intro p hp
    have h3 := hp.2.2
    norm_num [grayFrame] at h3
  exact ⟨hno, opacity_mask_fallback grayFrame hno⟩

/-! ### Geometry primitives (the PIL operations the compositor uses) -/

/-- A fresh canvas of the given mode, size (width, height) and fill. -/
def newImage (mode : Mode) (w h : Nat) (c : Pixel) : Image := ⟨mode, h, w, fun _ _ => c⟩

/-- Model of PIL resize: the output has exactly the requested dimensions,
and PIL raises for non-positive requested sizes.  The resampling kernel
(LANCZOS or BILINEAR in the source) is modelled as clamped subsampling; no
verified property depends on interpolated pixel values, only on output
geometry. -/
def resizeImage (img : Image) (w h : ℤ) : Except String Image :=
  if 0 < w ∧ 0 < h then
    .ok ⟨img.mode, h.toNat, w.toNat, fun y x =>
      img.pix (y * img.h / h.toNat) (x * img.w / w.toNat)⟩
  else .error "height and width must be > 0"

/-- PIL crop with box (left, upper, left + w, upper + h): always returns
exactly the requested size; out-of-box pixels read as zero-filled. -/
def cropImage (img : Image) (left upper : ℤ) (w h : Nat) : Image :=
  ⟨img.mode, h, w, fun y x =>
    if 0 ≤ (y : ℤ) + upper ∧ (y : ℤ) + upper < img.h ∧
        0 ≤ (x : ℤ) + left ∧ (x : ℤ) + left < img.w then
      img.pix ((y : ℤ) + upper).toNat ((x : ℤ) + left).toNat
    else ⟨0, 0, 0, 0⟩⟩

/-- PIL paste without mask: overwrite the box, clipped to the canvas. -/
def paste (canvas img : Image) (px py : ℤ) : Image :=
  { canvas with
    pix := fun y x =>
      if px ≤ (x : ℤ) ∧ (x : ℤ) < px + img.w ∧ py ≤ (y : ℤ) ∧ (y : ℤ) < py + img.h then
        img.pix ((y : ℤ) - py).toNat ((x : ℤ) - px).toNat
      else canvas.pix y x }

/-- PIL paste of an RGBA image used as its own mask (line 268): inside the
box the channels blend by the pasted alpha with PIL rounding; outside, the
canvas is kept.  The masks of this pipeline carry only alpha 0 or 255, so
the blend reduces to select-foreground or keep-background. -/
def pasteMask (canvas img : Image) (px py : ℤ) : Image :=
  { canvas with
    pix := fun y x =>
      if px ≤ (x : ℤ) ∧ (x : ℤ) < px + img.w ∧ py ≤ (y : ℤ) ∧ (y : ℤ) < py + img.h then
        let f := img.pix ((y : ℤ) - py).toNat ((x : ℤ) - px).toNat
        let b := canvas.pix y x
        ⟨(f.r * f.a + b.r * (255 - f.a) + 127) / 255,
         (f.g * f.a + b.g * (255 - f.a) + 127) / 255,
         (f.b * f.a + b.b * (255 - f.a) + 127) / 255,
         b.a⟩
      else canvas.pix y x }

/-- PIL convert("RGBA"): an RGB raster becomes fully opaque. -/
def convertRGBA (img : Image) : Image :=
  ⟨Mode.RGBA, img.h, img.w, fun y x =>
    let p := img.pix y x
    ⟨p.r, p.g, p.b, if img.mode = Mode.RGB then 255 else p.a⟩⟩

/-- PIL convert("RGB"): drop the alpha channel (opaque by convention). -/
def convertRGB (img : Image) : Image :=
  ⟨Mode.RGB, img.h, img.w, fun y x =>
    let p := img.pix y x
    ⟨p.r, p.g, p.b, 255⟩⟩

/-- frame_composer.py lines 274-279: swap the BGR channel order to RGB. -/
def cv2_to_rgb (bgr_image : Image) : Image :=
  ⟨Mode.RGB, bgr_image.h, bgr_image.w, fun y x =>
    let p := bgr_image.pix y x
    ⟨p.b, p.g, p.r, 255⟩⟩

/-! ### Single-photo compositor — frame_composer.py apply_frame lines 123-271 -/

/-- frame_composer.py apply_frame.  Float scale factors are modelled by
exact rationals and Python int() by the floor (all values are nonnegative).
An empty photo makes cv2.cvtColor raise; a zero-sized frame would divide by
zero: both are errors.  The photo cover-scale of lines 172-179 is computed
against the photo itself, so it is 1 and the photo is pasted unscaled at
offset 0 — the formulas are kept as written. -/
def apply_frame (photo : Image) (frame_src : Image) : Except String Image :=
  if photo.h = 0 ∨ photo.w = 0 then .error "empty photo"
  else
    let rgb_photo := cv2_to_rgb photo
    let frame := convertRGBA frame_src
    let photo_width := rgb_photo.w
    let photo_height := rgb_photo.h
    if frame.w = 0 ∨ frame.h = 0 then .error "division by zero"
    else
      let scale : ℚ := max ((photo_width : ℚ) / frame.w) ((photo_height : ℚ) / frame.h)
      let scaled_frame_width : ℤ := ⌊(frame.w : ℚ) * scale⌋
      let scaled_frame_height : ℤ := ⌊(frame.h : ℚ) * scale⌋
      do
        let frame_scaled ← resizeImage frame scaled_frame_width scaled_frame_height
        let crop_x : ℤ := (scaled_frame_width - photo_width) / 2
        let crop_y : ℤ := (scaled_frame_height - photo_height) / 2
        let frame_cropped := cropImage frame_scaled crop_x crop_y photo_width photo_height
        let photo_scale : ℚ :=
          max ((photo_width : ℚ) / rgb_photo.w) ((photo_height : ℚ) / rgb_photo.h)
        let final_photo_width : ℤ := ⌊(rgb_photo.w : ℚ) * photo_scale⌋
        let final_photo_height : ℤ := ⌊(rgb_photo.h : ℚ) * photo_scale⌋
        let photo_scaled ← resizeImage rgb_photo final_photo_width final_photo_height
        let masked := resolve_mask frame_cropped
        let photo_x : ℤ := ((photo_width : ℤ) - final_photo_width) / 2
        let photo_y : ℤ := ((photo_height : ℤ) - final_photo_height) / 2
        let composed := newImage Mode.RGB photo_width photo_height ⟨255, 255, 255, 255⟩
        let composed2 := paste composed photo_scaled photo_x photo_y
        let composed_rgba := convertRGBA composed2
        let composited := pasteMask composed_rgba masked 0 0
        .ok (convertRGB composited)

/-! ### Strip layout engine — frame_composer.py compose_photostrip lines 36-120
and composition.py stitch_photostrip_from_bytes lines 360-433 -/

/-- Duck-typed frame argument of compose_photostrip (lines 54-63): a single
asset reference is expanded to one per photo.  Asset existence and decoding
are modelled by the Image values being available. -/
inductive FramePathsArg where
  | single (f : Image)
  | list (fs : List Image)

/-- Lines 54-63 after the existence checks. -/
def frames_list (fp : FramePathsArg) (n : Nat) : List Image :=
  match fp with
  | .single f => List.replicate n f
  | .list fs => fs

/-- Lines 77-89: grid (cols, rows) for the photo count, including the
1-column fallback for counts other than 4 and 9. -/
def grid_for (n : Nat) : Nat × Nat :=
  if n = 4 then (1, 4) else if n = 9 then (3, 3) else (1, n)

/-- Lines 94-98: cell size along one axis; Python floor division is ℤ
division here because the grid dimension is positive. -/
def cell_size (target border gdim : Nat) : ℤ :=
  ((target : ℤ) - border * (gdim + 1)) / gdim

/-- Lines 110-116: paste offsets of cell i (col = i % cols, row = i / cols). -/
def paste_pos (border cols : Nat) (pw ph : ℤ) (i : Nat) : ℤ × ℤ :=
  ((border : ℤ) + ((i % cols : ℕ) : ℤ) * (pw + border),
   (border : ℤ) + ((i / cols : ℕ) : ℤ) * (ph + border))

/-- Lines 110-118: paste each resized photo in input order, row-major. -/
def pasteAll (canvas : Image) (imgs : List Image) (pos : Nat → ℤ × ℤ) (i : Nat) : Image :=
  match imgs with
  | [] => canvas
  | img :: rest => pasteAll (paste canvas img (pos i).1 (pos i).2) rest pos (i + 1)

/-- Sequential mapping of a fallible step over a list, stopping at the
first failure (the Python for-loops raise out of the whole call). -/
def mapExcept {α β : Type} (f : α → Except String β) : List α → Except String (List β)
  | [] => .ok []
  | a :: l => do
    let b ← f a
    let bs ← mapExcept f l
    .ok (b :: bs)

/-- Lines 67-75: per unit, exposure when nonzero, then the frame overlay. -/
def compose_unit (photo frame : Image) (e : ℤ) : Except String Image := do
  let adjusted ← if e ≠ 0 then apply_exposure photo e else .ok photo
  apply_frame adjusted frame

/-- frame_composer.py compose_photostrip lines 36-120. -/
def compose_photostrip (photos : List Image) (frame_paths : FramePathsArg)
    (exposure_values : Option (List ℤ)) (target_width target_height : Nat)
    (border_width : Nat) : Except String Image :=
  if photos.isEmpty then .error "No photos provided for composition"
  else
    let num_photos := photos.length
    let evs := normalize_exposures exposure_values num_photos
    let fps := frames_list frame_paths num_photos
    do
      let framed ← mapExcept (fun t => compose_unit t.1 t.2.1 t.2.2)
        (photos.zip (fps.zip evs))
      let cr := grid_for num_photos
      let photo_width := cell_size target_width border_width cr.1
      let photo_height := cell_size target_height border_width cr.2
      let resized ← mapExcept (fun f => resizeImage f photo_width photo_height) framed
      let canvas := newImage Mode.RGB target_width target_height ⟨0, 0, 0, 255⟩
      .ok (pasteAll canvas resized (paste_pos border_width cr.1 photo_width photo_height) 0)

/-- composition.py stitch_photostrip_from_bytes lines 360-433: the A6
stitcher over already-framed photos, with the hard 4-or-9 arity check of
lines 376-378.  Decoding of the byte payloads is modelled by the Image
values; convert("RGB") is applied unconditionally (it is the identity on
RGB rasters). -/
def stitch_photostrip_from_bytes (photo_bytes_list : List Image) (gap : Nat) :
    Except String Image :=
  let photo_count := photo_bytes_list.length
  if ¬ (photo_count = 4 ∨ photo_count = 9) then
    .error "Must have exactly 4 or 9 photos"
  else
    let target_width : Nat := 1240
    let target_height : Nat := 1748
    let border_width := gap
    let cr := if photo_count = 4 then ((1 : Nat), (4 : Nat)) else ((3 : Nat), (3 : Nat))
    let framed := photo_bytes_list.map convertRGB
    let photo_width := cell_size target_width border_width cr.1
    let photo_height := cell_size target_height border_width cr.2
    do
      let resized ← mapExcept (fun f => resizeImage f photo_width photo_height) framed
      let canvas := newImage Mode.RGB target_width target_height ⟨0, 0, 0, 255⟩
      .ok (pasteAll canvas resized (paste_pos border_width cr.1 photo_width photo_height) 0)

/-! ### Compositor success and geometry lemmas -/

lemma ok_bind {α β : Type} (a : α) (f : α → Except String β) :
    (Except.ok a >>= f : Except String β) = f a := rfl

lemma resizeImage_ok (img : Image) (w h : ℤ) (hw : 0 < w) (hh : 0 < h) :
    ∃ out, resizeImage img w h = .ok out ∧
      out.w = w.toNat ∧ out.h = h.toNat ∧ out.mode = img.mode := by
  unfold resizeImage
  rw [if_pos ⟨hw, hh⟩]
  exact ⟨_, rfl, rfl, rfl, rfl⟩

lemma mapExcept_ok {α β : Type} (f : α → Except String β) (P : β → Prop) (l : List α)
    (h : ∀ a ∈ l, ∃ b, f a = .ok b ∧ P b) :
    ∃ bs, mapExcept f l = .ok bs ∧ bs.length = l.length ∧ ∀ b ∈ bs, P b := by
  induction l with
  | nil => exact ⟨[], rfl, rfl, by simp⟩
  | cons a l ih =>
    obtain ⟨b, hb, hPb⟩ := h a (List.mem_cons_self a l)
    obtain ⟨bs, hbs, hlen, hP⟩ := ih (fun c hc => h c (List.mem_cons_of_mem _ hc))
    refine ⟨b :: bs, ?_, by simp [hlen], ?_⟩
    · show (f a >>= fun b => mapExcept f l >>= fun bs => .ok (b :: bs)) = _
      rw [hb, ok_bind, hbs, ok_bind]
    · intro c hc
      rcases List.mem_cons.mp hc with h1 | h1
      · exact h1 ▸ hPb
      · exact hP c h1

lemma one_le_floor_mul (fw m t : ℚ) (hfw : 0 < fw) (ht : 1 ≤ t) (hm : t / fw ≤ m) :
    (1 : ℤ) ≤ ⌊fw * m⌋ := by
  rw [Int.le_floor]
  have h1 : fw * (t / fw) = t := by field_simp
  have h2 : fw * (t / fw) ≤ fw * m := mul_le_mul_of_nonneg_left hm (le_of_lt hfw)
  push_cast
  linarith

lemma apply_frame_ok (photo frame_src : Image)
    (hph : 0 < photo.h) (hpw : 0 < photo.w)
    (hfh : 0 < frame_src.h) (hfw : 0 < frame_src.w) :
    ∃ out, apply_frame photo frame_src = .ok out ∧
      out.w = photo.w ∧ out.h = photo.h ∧ out.mode = Mode.RGB := by
  unfold apply_frame
  rw [if_neg (by omega)]
  dsimp only [cv2_to_rgb, convertRGBA]
  rw [if_neg (by omega)]
  have hfw' : (0 : ℚ) < (frame_src.w : ℚ) := by exact_mod_cast hfw
  have hfh' : (0 : ℚ) < (frame_src.h : ℚ) := by exact_mod_cast hfh
  have hpw' : (1 : ℚ) ≤ (photo.w : ℚ) := by exact_mod_cast hpw
  have hph' : (1 : ℚ) ≤ (photo.h : ℚ) := by exact_mod_cast hph
  have hsfw : (0 : ℤ) <
      ⌊(frame_src.w : ℚ) * max ((photo.w : ℚ) / frame_src.w) ((photo.h : ℚ) / frame_src.h)⌋ :=
    lt_of_lt_of_le (by norm_num)
      (one_le_floor_mul _ _ _ hfw' hpw' (le_max_left _ _))
  have hsfh : (0 : ℤ) <
      ⌊(frame_src.h : ℚ) * max ((photo.w : ℚ) / frame_src.w) ((photo.h : ℚ) / frame_src.h)⌋ :=
    lt_of_lt_of_le (by norm_num)
      (one_le_floor_mul _ _ _ hfh' hph' (le_max_right _ _))
  obtain ⟨fs, hfs, hfsw, hfsh, hfsm⟩ := resizeImage_ok
    ⟨Mode.RGBA, frame_src.h, frame_src.w, fun y x =>
      ⟨(frame_src.pix y x).r, (frame_src.pix y x).g, (frame_src.pix y x).b,
        if frame_src.mode = Mode.RGB then 255 else (frame_src.pix y x).a⟩⟩
    _ _ hsfw hsfh
  rw [hfs, ok_bind]
  have hmax1 : max ((photo.w : ℚ) / photo.w) ((photo.h : ℚ) / photo.h) = 1 := by
    rw [div_self (by positivity), div_self (by positivity), max_self]
  have hfpw : ⌊(photo.w : ℚ) * max ((photo.w : ℚ) / photo.w) ((photo.h : ℚ) / photo.h)⌋ =
      (photo.w : ℤ) := by
    rw [hmax1, mul_one, Int.floor_natCast]
  have hfph : ⌊(photo.h : ℚ) * max ((photo.w : ℚ) / photo.w) ((photo.h : ℚ) / photo.h)⌋ =
      (photo.h : ℤ) := by
    rw [hmax1, mul_one, Int.floor_natCast]
  rw [hfpw, hfph]
  obtain ⟨ps, hps, hpsw, hpsh, hpsm⟩ := resizeImage_ok
    ⟨Mode.RGB, photo.h, photo.w, fun y x =>
      ⟨(photo.pix y x).b, (photo.pix y x).g, (photo.pix y x).r, 255⟩⟩
    (photo.w : ℤ) (photo.h : ℤ) (by exact_mod_cast hpw) (by exact_mod_cast hph)
  rw [hps, ok_bind]
  exact ⟨_, rfl, rfl, rfl, rfl⟩

lemma compose_unit_ok (photo frame : Image) (e : ℤ)
    (hph : 0 < photo.h) (hpw : 0 < photo.w) (hfh : 0 < frame.h) (hfw : 0 < frame.w) :
    ∃ out, compose_unit photo frame e = .ok out := by
  unfold compose_unit
  by_cases he : e ≠ 0
  · rw [if_pos he, apply_exposure_eq_expo_out photo e (Nat.mul_pos hph hpw).ne', ok_bind]
    obtain ⟨out, hout, -, -, -⟩ := apply_frame_ok (expo_out photo e) frame
      (by rw [expo_out_h]; exact hph) (by rw [expo_out_w]; exact hpw) hfh hfw
    exact ⟨out, hout⟩
  · rw [if_neg he, ok_bind]
    obtain ⟨out, hout, -, -, -⟩ := apply_frame_ok photo frame hph hpw hfh hfw
    exact ⟨out, hout⟩

lemma pasteAll_dims (canvas : Image) (imgs : List Image) (pos : Nat → ℤ × ℤ) (i : Nat) :
    (pasteAll canvas imgs pos i).w = canvas.w ∧ (pasteAll canvas imgs pos i).h = canvas.h ∧
      (pasteAll canvas imgs pos i).mode = canvas.mode := by
  induction imgs generalizing canvas i with
  | nil => exact ⟨rfl, rfl, rfl⟩
  | cons img rest ih => exact ih (paste canvas img (pos i).1 (pos i).2) (i + 1)

lemma pasteAll_pix_outside (canvas : Image) (imgs : List Image) (pos : Nat → ℤ × ℤ)
    (i0 y x : Nat) (W H : ℕ)
    (hdim : ∀ img ∈ imgs, img.w = W ∧ img.h = H)
    (hout : ∀ i, ¬ ((pos i).1 ≤ (x : ℤ) ∧ (x : ℤ) < (pos i).1 + (W : ℤ) ∧
      (pos i).2 ≤ (y : ℤ) ∧ (y : ℤ) < (pos i).2 + (H : ℤ))) :
    (pasteAll canvas imgs pos i0).pix y x = canvas.pix y x := by
  induction imgs generalizing canvas i0 with
  | nil => rfl
  | cons img rest ih =>
    obtain ⟨hw, hh⟩ := hdim img (List.mem_cons_self _ _)
    have h1 : (pasteAll canvas (img :: rest) pos i0).pix y x =
        (paste canvas img (pos i0).1 (pos i0).2).pix y x :=
      ih (paste canvas img (pos i0).1 (pos i0).2) (i0 + 1)
        (fun c hc => hdim c (List.mem_cons_of_mem _ hc))
    rw [h1]
    unfold paste
    dsimp only
    rw [if_neg (by rw [hw, hh]; exact hout i0)]

lemma compose_photostrip_run (photos : List Image) (fp : FramePathsArg)
    (evs : Option (List ℤ)) (tw th border : Nat)
    (hne : photos ≠ [])
    (hphotos : ∀ p ∈ photos, 0 < p.h ∧ 0 < p.w)
    (hframes : ∀ f ∈ frames_list fp photos.length, 0 < f.h ∧ 0 < f.w)
    (hcw : 0 < cell_size tw border (grid_for photos.length).1)
    (hch : 0 < cell_size th border (grid_for photos.length).2) :
    ∃ rs, compose_photostrip photos fp evs tw th border =
        .ok (pasteAll (newImage Mode.RGB tw th ⟨0, 0, 0, 255⟩) rs
          (paste_pos border (grid_for photos.length).1
            (cell_size tw border (grid_for photos.length).1)
            (cell_size th border (grid_for photos.length).2)) 0) ∧
      ∀ r ∈ rs, r.w = (cell_size tw border (grid_for photos.length).1).toNat ∧
        r.h = (cell_size th border (grid_for photos.length).2).toNat := by
  unfold compose_photostrip
  rw [if_neg (by simpa [List.isEmpty_iff] using hne)]
  dsimp only
  have hzip : ∀ t ∈ photos.zip ((frames_list fp photos.length).zip
      (normalize_exposures evs photos.length)),
      ∃ b, compose_unit t.1 t.2.1 t.2.2 = .ok b ∧ True := by
    intro t ht
    have h1 := (List.of_mem_zip ht).1
    have h2 := (List.of_mem_zip (List.of_mem_zip ht).2).1
    obtain ⟨hph, hpw⟩ := hphotos t.1 h1
    obtain ⟨hfh, hfw⟩ := hframes t.2.1 h2
    obtain ⟨out, hout⟩ := compose_unit_ok t.1 t.2.1 t.2.2 hph hpw hfh hfw
    exact ⟨out, hout, trivial⟩
  obtain ⟨framed, hframed, hflen, -⟩ := mapExcept_ok _ _ _ hzip
  rw [hframed, ok_bind]
  have hres : ∀ f ∈ framed,
      ∃ b, resizeImage f (cell_size tw border (grid_for photos.length).1)
          (cell_size th border (grid_for photos.length).2) = .ok b ∧
        (b.w = (cell_size tw border (grid_for photos.length).1).toNat ∧
          b.h = (cell_size th border (grid_for photos.length).2).toNat) := by
    intro f _
    obtain ⟨out, hout, hw, hh, -⟩ := resizeImage_ok f _ _ hcw hch
    exact ⟨out, hout, hw, hh⟩
  obtain ⟨rs, hrs, hrslen, hrsdim⟩ := mapExcept_ok _ _ _ hres
  rw [hrs, ok_bind]
  exact ⟨rs, rfl, hrsdim⟩

/-- C6: for a nonempty photo and a decodable frame asset, the single-photo
compositor succeeds and its output has exactly the pixel dimensions of the
input photo and is an opaque RGB raster with no alpha channel. -/
theorem single_photo_output_dims (photo frame_src : Image)
    (hph : 0 < photo.h) (hpw : 0 < photo.w)
    (hfh : 0 < frame_src.h) (hfw : 0 < frame_src.w) :
    ∃ out, apply_frame photo frame_src = .ok out ∧
      out.w = photo.w ∧ out.h = photo.h ∧ out.mode = Mode.RGB :=
  apply_frame_ok photo frame_src hph hpw hfh hfw

theorem single_photo_output_dims_witness :
    (0 < testImage.h ∧ 0 < testImage.w ∧ 0 < testFrame.h ∧ 0 < testFrame.w) ∧
      (∃ out, apply_frame testImage testFrame = .ok out ∧
        out.w = testImage.w ∧ out.h = testImage.h ∧ out.mode = Mode.RGB) :=
  ⟨by decide, single_photo_output_dims testImage testFrame
    (by decide) (by decide) (by decide) (by decide)⟩

/-- C3: for any 4-or-9 unit list with nonempty photos and frames and any
canvas spec satisfying the cell-size positivity constraint, the composed
strip succeeds and has exactly the target dimensions. -/
theorem strip_canvas_size (photos : List Image) (fp : FramePathsArg)
    (evs : Option (List ℤ)) (tw th border : Nat)
    (hn : photos.length = 4 ∨ photos.length = 9)
    (hphotos : ∀ p ∈ photos, 0 < p.h ∧ 0 < p.w)
    (hframes : ∀ f ∈ frames_list fp photos.length, 0 < f.h ∧ 0 < f.w)
    (hcw : 0 < cell_size tw border (grid_for photos.length).1)
    (hch : 0 < cell_size th border (grid_for photos.length).2) :
    ∃ out, compose_photostrip photos fp evs tw th border = .ok out ∧
      out.w = tw ∧ out.h = th := by
  have hne : photos ≠ [] := by
    intro h0
    rw [h0] at hn
    simp at hn
  obtain ⟨rs, hrun, -⟩ :=
    compose_photostrip_run photos fp evs tw th border hne hphotos hframes hcw hch
  refine ⟨_, hrun, ?_, ?_⟩
  · exact (pasteAll_dims (newImage Mode.RGB tw th ⟨0, 0, 0, 255⟩) rs _ 0).1
  · exact (pasteAll_dims (newImage Mode.RGB tw th ⟨0, 0, 0, 255⟩) rs _ 0).2.1

theorem strip_canvas_size_witness :
    ((List.replicate 4 testImage).length = 4 ∨ (List.replicate 4 testImage).length = 9) ∧
      (∀ p ∈ List.replicate 4 testImage, 0 < p.h ∧ 0 < p.w) ∧
      (∀ f ∈ frames_list (.single testFrame) (List.replicate 4 testImage).length,
        0 < f.h ∧ 0 < f.w) ∧
      0 < cell_size 50 10 (grid_for (List.replicate 4 testImage).length).1 ∧
      0 < cell_size 70 10 (grid_for (List.replicate 4 testImage).length).2 ∧
      (∃ out, compose_photostrip (List.replicate 4 testImage) (.single testFrame)
          none 50 70 10 = .ok out ∧ out.w = 50 ∧ out.h = 70) :=
  ⟨by decide, by decide, by decide, by decide, by decide,
    strip_canvas_size (List.replicate 4 testImage) (.single testFrame) none 50 70 10
      (by decide) (by decide) (by decide) (by decide) (by decide)⟩

/-- C4: on a print-mode strip with border_width = 10 and a valid 4-or-9
unit input, every pixel of the four 10 x 10 corner blocks of the output
canvas is pure black: all paste offsets keep at least border_width of the
black background on every side. -/
theorem border_corners_black (photos : List Image) (fp : FramePathsArg)
    (evs : Option (List ℤ)) (tw th : Nat)
    (hn : photos.length = 4 ∨ photos.length = 9)
    (hphotos : ∀ p ∈ photos, 0 < p.h ∧ 0 < p.w)
    (hframes : ∀ f ∈ frames_list fp photos.length, 0 < f.h ∧ 0 < f.w)
    (hcw : 0 < cell_size tw 10 (grid_for photos.length).1)
    (hch : 0 < cell_size th 10 (grid_for photos.length).2) :
    ∃ out, compose_photostrip photos fp evs tw th 10 = .ok out ∧
      ∀ y x, y < th → x < tw →
        (y < 10 ∨ th - 10 ≤ y) → (x < 10 ∨ tw - 10 ≤ x) →
        (out.pix y x).r = 0 ∧ (out.pix y x).g = 0 ∧ (out.pix y x).b = 0 := by
  have hne : photos ≠ [] := by
    intro h0
    rw [h0] at hn
    simp at hn
  obtain ⟨rs, hrun, hdim⟩ :=
    compose_photostrip_run photos fp evs tw th 10 hne hphotos hframes hcw hch
  refine ⟨_, hrun, ?_⟩
  intro y x hy hx hcy hcx
  have hout : ∀ i, ¬ ((paste_pos 10 (grid_for photos.length).1
      (cell_size tw 10 (grid_for photos.length).1)
      (cell_size th 10 (grid_for photos.length).2) i).1 ≤ (x : ℤ) ∧
      (x : ℤ) < (paste_pos 10 (grid_for photos.length).1
        (cell_size tw 10 (grid_for photos.length).1)
        (cell_size th 10 (grid_for photos.length).2) i).1 +
        ((cell_size tw 10 (grid_for photos.length).1).toNat : ℤ) ∧
      (paste_pos 10 (grid_for photos.length).1
        (cell_size tw 10 (grid_for photos.length).1)
        (cell_size th 10 (grid_for photos.length).2) i).2 ≤ (y : ℤ) ∧
      (y : ℤ) < (paste_pos 10 (grid_for photos.length).1
        (cell_size tw 10 (grid_for photos.length).1)
        (cell_size th 10 (grid_for photos.length).2) i).2 +
        ((cell_size th 10 (grid_for photos.length).2).toNat : ℤ)) := by
    intro i hc
    obtain ⟨ha, hb, -, -⟩ := hc
    unfold paste_pos at ha hb
    dsimp only at ha hb
    rcases hn with h4 | h9
    · have hc1 : (grid_for photos.length).1 = 1 := by rw [h4]; rfl
      rw [hc1] at ha hb hcw
      unfold cell_size at ha hb hcw
      rw [Nat.mod_one] at ha hb
      omega
    · have hc1 : (grid_for photos.length).1 = 3 := by rw [h9]; rfl
      rw [hc1] at ha hb hcw
      unfold cell_size at ha hb hcw
      have h3 : i % 3 = 0 ∨ i % 3 = 1 ∨ i % 3 = 2 := by omega
      rcases h3 with h3 | h3 | h3 <;> rw [h3] at ha hb <;> omega
  have hpix := pasteAll_pix_outside (newImage Mode.RGB tw th ⟨0, 0, 0, 255⟩) rs
    (paste_pos 10 (grid_for photos.length).1
      (cell_size tw 10 (grid_for photos.length).1)
      (cell_size th 10 (grid_for photos.length).2)) 0 y x
    (cell_size tw 10 (grid_for photos.length).1).toNat
    (cell_size th 10 (grid_for photos.length).2).toNat
    hdim hout
  rw [hpix]
  exact ⟨rfl, rfl, rfl⟩

theorem border_corners_black_witness :
    ((List.replicate 4 testImage).length = 4 ∨ (List.replicate 4 testImage).length = 9) ∧
      (∃ out, compose_photostrip (List.replicate 4 testImage) (.single testFrame)
          none 50 70 10 = .ok out ∧
        ∀ y x, y < 70 → x < 50 →
          (y < 10 ∨ 70 - 10 ≤ y) → (x < 10 ∨ 50 - 10 ≤ x) →
          (out.pix y x).r = 0 ∧ (out.pix y x).g = 0 ∧ (out.pix y x).b = 0) :=
  ⟨by decide,
    border_corners_black (List.replicate 4 testImage) (.single testFrame) none 50 70
      (by decide) (by decide) (by decide) (by decide) (by decide)⟩

/-- C2, amended side: the API stitcher signals the arity error for every
photo count other than 4 and 9, for every gap, and returns no canvas. -/
theorem stitch_arity_rejection (photos : List Image) (gap : Nat)
    (h : ¬ (photos.length = 4 ∨ photos.length = 9)) :
    stitch_photostrip_from_bytes photos gap = .error "Must have exactly 4 or 9 photos" := by
  unfold stitch_photostrip_from_bytes
  rw [if_pos h]

theorem stitch_arity_rejection_witness :
    ¬ ((List.replicate 5 testImage).length = 4 ∨ (List.replicate 5 testImage).length = 9) ∧
      stitch_photostrip_from_bytes (List.replicate 5 testImage) 10 =
        .error "Must have exactly 4 or 9 photos" :=
  ⟨by decide, stitch_arity_rejection (List.replicate 5 testImage) 10 (by decide)⟩

/-- C2 refuting instance: the desktop compose_photostrip does not signal an
arity error for 5 units — the fallback of frame_composer.py lines 86-89
silently composes a 1-column, 5-row layout and returns a canvas. -/
theorem compose_photostrip_five_units_ok :
    ∃ out, compose_photostrip (List.replicate 5 testImage) (.single testFrame)
      none 23 66 10 = .ok out := by
  obtain ⟨rs, hrun, -⟩ := compose_photostrip_run (List.replicate 5 testImage)
    (.single testFrame) none 23 66 10
    (by simp) (by decide) (by decide) (by decide) (by decide)
  exact ⟨_, hrun⟩
